import Mathlib

/-!
Verification development for the sef interpreter (lexer in token.py,
recursive-descent parser in parser.py, tree-walking evaluator in logic.py).
Each Python construct is embedded shallowly: machine state (the variables
dict, the function table, the outstanding token list) is passed explicitly,
Python exceptions become error constructors of an Except monad, and the
unbounded recursion of the evaluator and parser is indexed by a fuel
parameter (running out of fuel is a modelling artifact reported by a
dedicated error constructor, never identified with a Python exception).
-/

namespace Sef

/-- Operator enum from nodes.py; the numeric member order is ADD, SUBTRACT,
DIVIDE, MULTIPLY. -/
inductive Operator
  | ADD
  | SUBTRACT
  | DIVIDE
  | MULTIPLY
deriving DecidableEq

/-- Exact model of a Python float as an unnormalised numerator/denominator
pair. The interpreter only produces floats through true division of exact
integers and of other such floats, so this representation is exact; toRat
gives the represented rational number. -/
structure PyFloat where
  num : Int
  den : Int
deriving DecidableEq

def PyFloat.toRat (p : PyFloat) : ℚ := (p.num : ℚ) / (p.den : ℚ)

/-- Runtime values: Python ints, floats, strings, None, and (reachable via
the catch-all value-attribute branch of execute_item) bare Operator enum
members. -/
inductive Value
  | int (n : Int)
  | float (f : PyFloat)
  | str (s : String)
  | pynone
  | oper (o : Operator)
deriving DecidableEq

/-- Runtime failures of logic.py. The Python code raises untyped Exception
values (or hits builtin exceptions); each constructor below corresponds to
one raise site or one builtin exception site, identified in comments. -/
inductive RErr
  /-- begin_execution: "All sef files must declare one main function". -/
  | missingMainFunction
  /-- begin_execution: "The main function takes 0 arguments, not n". -/
  | mainTakesArguments (n : Nat)
  /-- is_math_expression passes a Python list (not a tuple) as the second
  argument of isinstance, which raises TypeError for every element. -/
  | isinstanceTypeError
  /-- an operator lambda applied to operands it does not support. -/
  | typeErrorOperands
  /-- division by an integer or float zero. -/
  | zeroDivisionError
  /-- operator_node_to_function: operators[...] with a key that is not an
  Operator member (KeyError). -/
  | keyErrorOperator
  /-- access to a .value attribute on an object that has none. -/
  | attributeError
  /-- list.pop(0) on an empty list. -/
  | indexError
  /-- variables[...] lookup failure (KeyError). -/
  | unboundVariable (x : String)
  /-- execute_item: "Could not find a function named ...". -/
  | unknownFunction (f : String)
  /-- execute_item: "There is a function called ... but it takes <params>
  arguments instead of <got>" (the message embeds the parameter list). -/
  | arityMismatchCall (f : String) (params : List String) (got : Nat)
  /-- call_function: "Function '...' does not exist". -/
  | functionDoesNotExist (f : String)
  /-- call_function: "The function ... expects <expected> arguments but we
  got <got>". -/
  | arityError (f : String) (expected got : Nat)
  /-- execute_item: "No way to execute: ..." (the defensive fallback). -/
  | unevaluableNode
  /-- modelling artifact: the fuel bound on recursion depth was reached. -/
  | outOfFuel
deriving DecidableEq

deriving instance DecidableEq for Except

/-- AST expression nodes from nodes.py, together with the bare Python lists
of nodes that the parser can produce (seq). intLit is IntegerNode, strLit
is StringNode, varRef is VariableReferenceNode, op is OperatorNode, call is
CallNode, decl is VariableDeclarationNode. -/
inductive Expr
  | intLit (n : Int)
  | strLit (s : String)
  | varRef (x : String)
  | op (o : Operator)
  | call (f : String) (args : List Expr)
  | decl (x : String) (rhs : Expr)
  | seq (es : List Expr)

/-- DefinitionNode from nodes.py: name, argument names, body (a single node
or a list of nodes, both represented by Expr). -/
structure DefinitionNode where
  name : String
  arguments : List String
  body : Expr

/-- Lookup in a Python dict modelled as an insertion-ordered association
list. -/
def lookupA {α : Type} : List (String × α) → String → Option α
  | [], _ => none
  | (k, v) :: r, x => if k = x then some v else lookupA r x

/-- Insertion into a Python dict: replace in place if the key exists,
append otherwise. -/
def insertA {α : Type} : List (String × α) → String → α → List (String × α)
  | [], x, v => [(x, v)]
  | (k, w) :: r, x, v => if k = x then (k, v) :: r else (k, w) :: insertA r x v

/-- The per-invocation variables dict of the evaluator. -/
abbrev Scope := List (String × Value)

/-- The evaluator's function table (self.functions). -/
abbrev Fns := List (String × DefinitionNode)

/-- The host-function registry consulted by execute_item's fallback
(Python's builtins dict); none covers both a missing name and a
non-callable entry, since the code tests callable(function). -/
abbrev Host := String → Option (List Value → Value)

/-- Python a + b on the values the interpreter can produce. -/
def pyAdd : Value → Value → Except RErr Value
  | .int a, .int b => .ok (.int (a + b))
  | .int a, .float p => .ok (.float ⟨a * p.den + p.num, p.den⟩)
  | .float p, .int b => .ok (.float ⟨p.num + b * p.den, p.den⟩)
  | .float p, .float q => .ok (.float ⟨p.num * q.den + q.num * p.den, p.den * q.den⟩)
  | .str a, .str b => .ok (.str (a ++ b))
  | _, _ => .error .typeErrorOperands

/-- Python a - b. -/
def pySub : Value → Value → Except RErr Value
  | .int a, .int b => .ok (.int (a - b))
  | .int a, .float p => .ok (.float ⟨a * p.den - p.num, p.den⟩)
  | .float p, .int b => .ok (.float ⟨p.num - b * p.den, p.den⟩)
  | .float p, .float q => .ok (.float ⟨p.num * q.den - q.num * p.den, p.den * q.den⟩)
  | _, _ => .error .typeErrorOperands

/-- String repetition, as in Python s * n (negative n gives the empty
string). -/
def strRepeat (s : String) : Nat → String
  | 0 => ""
  | n + 1 => s ++ strRepeat s n

/-- Python a * b. -/
def pyMul : Value → Value → Except RErr Value
  | .int a, .int b => .ok (.int (a * b))
  | .int a, .float p => .ok (.float ⟨a * p.num, p.den⟩)
  | .float p, .int b => .ok (.float ⟨p.num * b, p.den⟩)
  | .float p, .float q => .ok (.float ⟨p.num * q.num, p.den * q.den⟩)
  | .str s, .int n => .ok (.str (strRepeat s n.toNat))
  | .int n, .str s => .ok (.str (strRepeat s n.toNat))
  | _, _ => .error .typeErrorOperands

/-- Python a / b: true division, always producing a float, raising
ZeroDivisionError on a zero divisor. -/
def pyDiv : Value → Value → Except RErr Value
  | .int a, .int b => if b = 0 then .error .zeroDivisionError else .ok (.float ⟨a, b⟩)
  | .int a, .float p => if p.num = 0 then .error .zeroDivisionError else .ok (.float ⟨a * p.den, p.num⟩)
  | .float p, .int b => if b = 0 then .error .zeroDivisionError else .ok (.float ⟨p.num, p.den * b⟩)
  | .float p, .float q => if q.num = 0 then .error .zeroDivisionError else .ok (.float ⟨p.num * q.den, p.den * q.num⟩)
  | _, _ => .error .typeErrorOperands

/-- The lambda table of operator_node_to_function, applied to two operand
values. -/
def applyOperator : Operator → Value → Value → Except RErr Value
  | .ADD => pyAdd
  | .SUBTRACT => pySub
  | .MULTIPLY => pyMul
  | .DIVIDE => pyDiv

/-- Operand resolution inside execute_math: a VariableReferenceNode is
looked up in variables (KeyError when absent); any other object contributes
its value attribute (AttributeError when it has none, e.g. a CallNode, a
VariableDeclarationNode or a bare list). -/
def operandValue : Expr → Scope → Except RErr Value
  | .varRef x, σ =>
    match lookupA σ x with
    | some v => .ok v
    | none => .error (.unboundVariable x)
  | .intLit n, _ => .ok (.int n)
  | .strLit s, _ => .ok (.str s)
  | .op o, _ => .ok (.oper o)
  | .call _ _, _ => .error .attributeError
  | .decl _ _, _ => .error .attributeError
  | .seq _, _ => .error .attributeError

/-- operator_node_to_function: operators[op_node.value]. A node whose value
attribute is not an Operator member raises KeyError; a node without a value
attribute raises AttributeError. -/
def operator_node_to_function : Expr → Except RErr Operator
  | .op o => .ok o
  | .intLit _ => .error .keyErrorOperator
  | .strLit _ => .error .keyErrorOperator
  | .varRef _ => .error .keyErrorOperator
  | .call _ _ => .error .attributeError
  | .decl _ _ => .error .attributeError
  | .seq _ => .error .attributeError

/-- The while loop of execute_math: pop an operator node, pop an operand
node (IndexError when absent), resolve the operand, look the operator up,
apply it to the running accumulator. -/
def execute_math_loop : Value → List Expr → Scope → Except RErr Value
  | acc, [], _ => .ok acc
  | _, [_], _ => .error .indexError
  | acc, opN :: valN :: rest, σ => do
    let v ← operandValue valN σ
    let o ← operator_node_to_function opN
    let acc2 ← applyOperator o acc v
    execute_math_loop acc2 rest σ

/-- execute_math from logic.py: pop the first operand as the accumulator,
then fold the remaining operator/operand pairs strictly left to right. -/
def execute_math : List Expr → Scope → Except RErr Value
  | [], _ => .error .indexError
  | first :: rest, σ => do
    let acc ← operandValue first σ
    execute_math_loop acc rest σ

/-- isinstance with a Python list (instead of a tuple of types) as its
second argument raises TypeError, whatever the first argument is. This is
exactly what is_math_expression does for every element of the expression
list. -/
def isinstanceListArg (_ : Expr) : Except RErr Bool :=
  .error .isinstanceTypeError

/-- is_math_expression from logic.py: all([isinstance(x, [...]) for x in
expression]). Because the second isinstance argument is a list, the call
raises TypeError on every element; only the empty list (for which all([])
is True) escapes the error. -/
def is_math_expression (es : List Expr) : Except RErr Bool := do
  let bs ← es.mapM isinstanceListArg
  .ok (bs.all id)

/-- Parameter binding of call_function: a fresh dict, filled positionally
(the caller has already checked that the lengths agree). -/
def bindParams (ps : List String) (vs : List Value) : Scope :=
  (List.zip ps vs).foldl (fun σ pv => insertA σ pv.1 pv.2) []

/-- Left-to-right evaluation of call-argument expressions by execute_item,
threading the shared variables dict. -/
def evalArgsF (exec : Expr → Scope → Except RErr (Value × Scope)) :
    List Expr → Scope → Except RErr (List Value × Scope)
  | [], σ => .ok ([], σ)
  | e :: es, σ => do
    let (v, σ2) ← exec e σ
    let (vs, σ3) ← evalArgsF exec es σ2
    .ok (v :: vs, σ3)

/-- The body loop of call_function: when the body is a list, run every line
in order and return the value of the last one (None when the list is
empty, since the loop then never runs and the method falls off the end). -/
def runBodyF (exec : Expr → Scope → Except RErr (Value × Scope)) :
    List Expr → Scope → Except RErr Value
  | [], _ => .ok .pynone
  | [e], σ => (exec e σ).map Prod.fst
  | e :: es, σ => do
    let (_, σ2) ← exec e σ
    runBodyF exec es σ2

/-- call_function from logic.py, parameterised by the execute_item level
used for the body: look the name up in the function table (it never
consults the host registry), check the arity, bind parameters positionally
into a fresh empty scope, then run the body (line by line when it is a
list, as a single node otherwise). -/
def callFunctionF (exec : Expr → Scope → Except RErr (Value × Scope))
    (fns : Fns) (f : String) (vals : List Value) : Except RErr Value :=
  match lookupA fns f with
  | none => .error (.functionDoesNotExist f)
  | some d =>
    if vals.length ≠ d.arguments.length then
      .error (.arityError f d.arguments.length vals.length)
    else
      match d.body with
      | .seq items => runBodyF exec items (bindParams d.arguments vals)
      | body => (exec body (bindParams d.arguments vals)).map Prod.fst

/-- getattr(item, "value", None) as used by the defensive fallback of
execute_item and by the final else of the assignment branch. Note that a
VariableReferenceNode's value attribute is the referenced variable's name,
per the class docstring in nodes.py. -/
def valueAttr : Expr → Option Value
  | .intLit n => some (.int n)
  | .strLit s => some (.str s)
  | .varRef x => some (.str x)
  | .op o => some (.oper o)
  | .call _ _ => none
  | .decl _ _ => none
  | .seq _ => none

/-- Python truthiness of the values valueAttr can produce: 0 and the empty
string are falsy, enum members are truthy. -/
def pyTruthy : Value → Bool
  | .int n => n ≠ 0
  | .float p => p.num ≠ 0
  | .str s => s ≠ ""
  | .pynone => false
  | .oper _ => true

/-- execute_item from logic.py, with the fuel parameter bounding call
nesting. The DefinitionNode branch is not represented here because the
evaluator's AST type restricts top-level items to definitions, which only
the pre-pass of begin_execution (registerAll below) ever passes to
execute_item; all other branches are embedded one for one. -/
def execute_item (hst : Host) (fns : Fns) : Nat → Expr → Scope → Except RErr (Value × Scope)
  | 0, _, _ => .error .outOfFuel
  | fuel + 1, item, σ =>
    match item with
    | .decl x rhs =>
      match rhs with
      | .seq es => do
        let b ← is_math_expression es
        if b then do
          let acc ← execute_math es σ
          .ok (.pynone, insertA σ x acc)
        else
          .ok (.pynone, σ)
      | .call f args => do
        let (vals, σ2) ← evalArgsF (execute_item hst fns fuel) args σ
        let r ← callFunctionF (execute_item hst fns fuel) fns f vals
        .ok (.pynone, insertA σ2 x r)
      | e =>
        match valueAttr e with
        | some v => .ok (.pynone, insertA σ x v)
        | none => .error .attributeError
    | .call f args =>
      match lookupA fns f with
      | none =>
        match hst f with
        | some g => do
          let (vals, σ2) ← evalArgsF (execute_item hst fns fuel) args σ
          .ok (g vals, σ2)
        | none => .error (.unknownFunction f)
      | some d =>
        if d.arguments.length ≠ args.length then
          .error (.arityMismatchCall f d.arguments args.length)
        else do
          let (vals, σ2) ← evalArgsF (execute_item hst fns fuel) args σ
          let r ← callFunctionF (execute_item hst fns fuel) fns f vals
          .ok (r, σ2)
    | .varRef x =>
      match lookupA σ x with
      | some v => .ok (v, σ)
      | none => .error (.unboundVariable x)
    | .seq es => do
      let b ← is_math_expression es
      if b then do
        let v ← execute_math es σ
        .ok (v, σ)
      else
        .ok (.pynone, σ)
    | e =>
      match valueAttr e with
      | some v => if pyTruthy v then .ok (v, σ) else .error .unevaluableNode
      | none => .error .unevaluableNode

/-- call_function at a given fuel level. -/
def call_function (hst : Host) (fns : Fns) (fuel : Nat) (f : String) (vals : List Value) :
    Except RErr Value :=
  callFunctionF (execute_item hst fns fuel) fns f vals

/-- Argument-list evaluation at a given fuel level. -/
def evalArgs (hst : Host) (fns : Fns) (fuel : Nat) :
    List Expr → Scope → Except RErr (List Value × Scope) :=
  evalArgsF (execute_item hst fns fuel)

/-- handle_definition from logic.py: register the definition under its name
(replacing any previous definition with that name). -/
def handle_definition (fns : Fns) (d : DefinitionNode) : Fns := insertA fns d.name d

/-- The pre-pass of begin_execution: execute_item is called on every
top-level item, and every top-level item is a DefinitionNode, which
execute_item routes to handle_definition. -/
def registerAll (ast : List DefinitionNode) : Fns := ast.foldl handle_definition []

/-- begin_execution from logic.py: register all definitions, fail when no
main is registered, fail when the registered main takes arguments,
otherwise call main with no arguments and discard its result. -/
def begin_execution (hst : Host) (fuel : Nat) (ast : List DefinitionNode) : Except RErr Unit :=
  let fns := registerAll ast
  match lookupA fns "main" with
  | none => .error .missingMainFunction
  | some d =>
    if d.arguments.length > 0 then .error (.mainTakesArguments d.arguments.length)
    else (call_function hst fns fuel "main" []).map fun _ => ()

/-- The empty host registry. -/
def host0 : Host := fun _ => none

/-- Does the function table built by the pre-pass hold a zero-parameter
definition named main? -/
def hasZeroParamMain (ast : List DefinitionNode) : Bool :=
  match lookupA (registerAll ast) "main" with
  | some d => d.arguments.isEmpty
  | none => false

/-- A host exposing exactly one callable, named print. -/
def hostPrint : Host := fun f => if f = "print" then some (fun _ => .pynone) else none

/-- The table holding the two-parameter function add2 with body a + b. -/
def defAdd2 : DefinitionNode := ⟨"add2", ["a", "b"], .seq [.varRef "a", .op .ADD, .varRef "b"]⟩

def fnsAdd2 : Fns := registerAll [defAdd2]

/-- The table holding the zero-parameter function g whose body reads the
variable a. -/
def defG : DefinitionNode := ⟨"g", [], .varRef "a"⟩

def fnsG : Fns := registerAll [defG]

/-- Whitespace characters of Python's str.lstrip and of the regex class
used around the equals sign (space, tab, newline, carriage return, form
feed, vertical tab). -/
def isWsChar (c : Char) : Bool :=
  c = ' ' || c = '\t' || c = '\n' || c = '\r' || c = '\x0b' || c = '\x0c'

/-- Characters matched by the identifier classes of token.py, which are
ASCII letters and underscore only. -/
def isNameChar (c : Char) : Bool := c.isAlpha || c = '_'

/-- Word characters for the word-boundary assertions of the token regexes
(restricted to ASCII, which covers the language's alphabet). -/
def isWordChar (c : Char) : Bool := c.isAlpha || c.isDigit || c = '_'

/-- Single or double quote (Char.ofNat 39 is the single quote). -/
def isQuoteChar (c : Char) : Bool := c = Char.ofNat 39 || c = '"'

/-- Any character the regex dot can match: anything but a newline. -/
def notNl (c : Char) : Bool := !(c = '\n')

/-- A character the string-content class can match: anything but a quote. -/
def notQuoteChar (c : Char) : Bool := !isQuoteChar c

/-- Token kinds of token.py. -/
inductive TokenType
  | DEF
  | END
  | VARIABLE_DECLARATION
  | IDENTIFIER
  | INTEGER
  | STRING
  | OPEN_PAREN
  | CLOSE_PAREN
  | COMMA
  | ADD
  | SUBTRACT
  | MULTIPLY
  | DIVIDE
deriving DecidableEq

/-- A token: kind plus the raw matched text. -/
structure Token where
  type : TokenType
  value : List Char
deriving DecidableEq

/-- Rule 1 of TOKENS, the anchored regex for a literal def followed by a
space: the trailing word boundary after the space requires the next
character to exist and be a word character. -/
def matchDef : List Char → Option (List Char × List Char)
  | 'd' :: 'e' :: 'f' :: ' ' :: rest =>
    match rest with
    | c :: _ => if isWordChar c then some (['d', 'e', 'f', ' '], rest) else none
    | [] => none
  | _ => none

/-- Rule 2 of TOKENS, the word-bounded literal end: the character after it,
if any, must not be a word character. -/
def matchEnd : List Char → Option (List Char × List Char)
  | 'e' :: 'n' :: 'd' :: rest =>
    match rest with
    | c :: _ => if isWordChar c then none else some (['e', 'n', 'd'], rest)
    | [] => some (['e', 'n', 'd'], [])
  | _ => none

/-- The one-or-more-non-newline-then-newline tail of the assignment-line
regex: the dot cannot match a newline, so the group runs to the first
newline, which must exist, and the group must be nonempty. Returns the
group and the remainder after the newline. -/
def matchRhsNl (r : List Char) : Option (List Char × List Char) :=
  let seg := r.takeWhile notNl
  if seg.isEmpty then none
  else
    match r.dropWhile notNl with
    | [] => none
    | c0 :: rest => if c0 = '\n' then some (seg, rest) else none

/-- The optional-whitespace-then-group-then-newline part after the equals
sign, with the regex engine's backtracking over the optional whitespace:
the greedy single whitespace is consumed first, and given back when the
rest of the pattern then fails. Returns the consumed whitespace, the group
and the remainder. -/
def matchWsRhs (r : List Char) : Option (List Char × List Char × List Char) :=
  match r with
  | [] => none
  | w :: r2 =>
    if isWsChar w then
      match matchRhsNl r2 with
      | some (seg, rest) => some ([w], seg, rest)
      | none =>
        match matchRhsNl r with
        | some (seg, rest) => some ([], seg, rest)
        | none => none
    else
      match matchRhsNl r with
      | some (seg, rest) => some ([], seg, rest)
      | none => none

/-- Shared core of the assignment-line regexes of token.py and parser.py
(identical patterns; the parser's adds the two capture groups): an
identifier run, one optional whitespace, an equals sign, then the
whitespace/group/newline tail. Returns (name, separator, rhs group,
remainder); the full match is name, separator, rhs and the newline, in that
order. -/
def matchAssignCore (c : List Char) : Option (List Char × List Char × List Char × List Char) :=
  let name := c.takeWhile isNameChar
  if name.isEmpty then none
  else
    match c.dropWhile isNameChar with
    | [] => none
    | c0 :: r0 =>
      if c0 = '=' then
        match matchWsRhs r0 with
        | some (mid, rhs, rest) => some (name, '=' :: mid, rhs, rest)
        | none => none
      else if isWsChar c0 then
        match r0 with
        | [] => none
        | c1 :: r1 =>
          if c1 = '=' then
            match matchWsRhs r1 with
            | some (mid, rhs, rest) => some (name, c0 :: '=' :: mid, rhs, rest)
            | none => none
          else none
      else none

/-- Rule 3 of TOKENS: an assignment line, matched in its entirety including
the verbatim right-hand-side text and the terminating newline. -/
def matchVariableDeclaration (c : List Char) : Option (List Char × List Char) :=
  match matchAssignCore c with
  | some (name, sep, rhs, rest) => some (name ++ sep ++ rhs ++ ['\n'], rest)
  | none => none

/-- Rule 4 of TOKENS: a word-bounded identifier run; the character after
the run, if any, must not be a word character (a digit would make the
trailing word boundary fail with no shorter match possible). -/
def matchIdentifier (c : List Char) : Option (List Char × List Char) :=
  let name := c.takeWhile isNameChar
  if name.isEmpty then none
  else
    match c.dropWhile isNameChar with
    | [] => some (name, [])
    | d :: r => if isWordChar d then none else some (name, d :: r)

/-- Rule 5 of TOKENS: a digit run. -/
def matchInteger (c : List Char) : Option (List Char × List Char) :=
  let ds := c.takeWhile Char.isDigit
  if ds.isEmpty then none else some (ds, c.dropWhile Char.isDigit)

/-- Rule 6 of TOKENS: a quote, one or more non-quote characters, a quote
(the two quotes need not match each other). -/
def matchString : List Char → Option (List Char × List Char)
  | q :: r =>
    if isQuoteChar q then
      let content := r.takeWhile notQuoteChar
      if content.isEmpty then none
      else
        match r.dropWhile notQuoteChar with
        | q2 :: rest => some (q :: content ++ [q2], rest)
        | [] => none
    else none
  | [] => none

/-- Rules 7 and 8 of TOKENS: a single literal character. -/
def matchSingle (ch : Char) : List Char → Option (List Char × List Char)
  | c0 :: rest => if c0 = ch then some ([c0], rest) else none
  | [] => none

/-- tokenize_next from token.py: try the ordered rules at the start of the
remaining code; the first one that matches wins; none matching is a lexing
failure (modelled as none). -/
def tokenize_next (c : List Char) : Option (Token × List Char) :=
  match matchDef c with
  | some p => some (⟨.DEF, p.1⟩, p.2)
  | none =>
  match matchEnd c with
  | some p => some (⟨.END, p.1⟩, p.2)
  | none =>
  match matchVariableDeclaration c with
  | some p => some (⟨.VARIABLE_DECLARATION, p.1⟩, p.2)
  | none =>
  match matchIdentifier c with
  | some p => some (⟨.IDENTIFIER, p.1⟩, p.2)
  | none =>
  match matchInteger c with
  | some p => some (⟨.INTEGER, p.1⟩, p.2)
  | none =>
  match matchString c with
  | some p => some (⟨.STRING, p.1⟩, p.2)
  | none =>
  match matchSingle '(' c with
  | some p => some (⟨.OPEN_PAREN, p.1⟩, p.2)
  | none =>
  match matchSingle ')' c with
  | some p => some (⟨.CLOSE_PAREN, p.1⟩, p.2)
  | none =>
  match matchSingle ',' c with
  | some p => some (⟨.COMMA, p.1⟩, p.2)
  | none =>
  match matchSingle '+' c with
  | some p => some (⟨.ADD, p.1⟩, p.2)
  | none =>
  match matchSingle '-' c with
  | some p => some (⟨.SUBTRACT, p.1⟩, p.2)
  | none =>
  match matchSingle '*' c with
  | some p => some (⟨.MULTIPLY, p.1⟩, p.2)
  | none =>
  match matchSingle '/' c with
  | some p => some (⟨.DIVIDE, p.1⟩, p.2)
  | none => none

/-- The tokenize_code loop: while code remains, take the next token and
strip leading whitespace from what is left. The fuel only bounds the
iteration count; tokenize_code supplies enough for any input because every
token consumes at least one character. -/
def lexLoop : Nat → List Char → Option (List Token)
  | _ + 1, [] => some []
  | fuel + 1, c =>
    match tokenize_next c with
    | some (t, rest) => (lexLoop fuel (rest.dropWhile isWsChar)).map (t :: ·)
    | none => none
  | 0, _ => none

/-- tokenize_code from token.py, including the constructor's initial
left-strip of the source. -/
def tokenize_code (c : List Char) : Option (List Token) :=
  lexLoop (c.length + 1) (c.dropWhile isWsChar)

/-- The source text is an interleaving of whitespace runs and the given
pieces, in order: a whitespace run, the first piece, a whitespace run, the
second piece, and so on, with a trailing whitespace run. -/
inductive WsInterleaves : List (List Char) → List Char → Prop
  | nil (w : List Char) (hw : ∀ ch ∈ w, isWsChar ch = true) : WsInterleaves [] w
  | cons (w v : List Char) (vs : List (List Char)) (rest : List Char)
      (hw : ∀ ch ∈ w, isWsChar ch = true)
      (ht : WsInterleaves vs rest) : WsInterleaves (v :: vs) (w ++ (v ++ rest))

/-- Parser failures of parser.py, one constructor per raise site or builtin
exception site. -/
inductive PErr
  /-- tokens.pop(0) or tokens[0] on an empty token list. -/
  | indexError
  /-- consume: "Looking for type X but found Y". -/
  | expectedType (expected actual : TokenType)
  /-- parse_expr: "Invalid token type: token". -/
  | invalidToken (t : Token)
  /-- re-lexing an assignment right-hand side failed (the lexer's
  "No valid tokens found" exception propagates). -/
  | lexError
  /-- a regex match that returned no result was used (match.groups() on
  None, or the string regex failing on a token value). -/
  | attributeError
  /-- int() applied to a non-numeric token value. -/
  | valueError
  /-- parse_operator fell through all four cases, leaving its local
  unbound (UnboundLocalError); unreachable from parse_expr. -/
  | unboundLocal
  /-- modelling artifact: the fuel bound on parser recursion was reached. -/
  | outOfFuel
deriving DecidableEq

/-- consume from parser.py: pop the head token (IndexError when empty),
then check its type. -/
def consume (expected : TokenType) (toks : List Token) : Except PErr (Token × List Token) :=
  match toks with
  | [] => .error .indexError
  | t :: rest => if t.type = expected then .ok (t, rest) else .error (.expectedType expected t.type)

/-- peek from parser.py: does the token at the offset have the expected
type (False past the end)? -/
def peekT (toks : List Token) (expected : TokenType) (offset : Nat) : Bool :=
  match toks.get? offset with
  | some t => t.type = expected
  | none => false

/-- is_operator_next from parser.py. -/
def is_operator_next (toks : List Token) : Bool :=
  peekT toks .ADD 0 || peekT toks .SUBTRACT 0 || peekT toks .DIVIDE 0 || peekT toks .MULTIPLY 0

/-- int() on a digit string. -/
def digitsToNat (ds : List Char) : Nat :=
  ds.foldl (fun a c => 10 * a + (c.toNat - 48)) 0

/-- parse_integer from parser.py: consume an INTEGER token and int() its
value (ValueError on a non-numeric value, which the lexer never produces). -/
def parse_integer (toks : List Token) : Except PErr (Expr × List Token) := do
  let (t, rest) ← consume .INTEGER toks
  if !t.value.isEmpty && t.value.all Char.isDigit then
    .ok (.intLit (digitsToNat t.value), rest)
  else
    .error .valueError

/-- The parser's string regex applied to a STRING token's value: a quote,
the nonempty run of non-quote characters (the capture group), a quote;
trailing characters are ignored by re.match. -/
def stripQuotes (v : List Char) : Option (List Char) :=
  match v with
  | q :: r =>
    if isQuoteChar q then
      let content := r.takeWhile notQuoteChar
      if content.isEmpty then none
      else
        match r.dropWhile notQuoteChar with
        | q2 :: _ => if isQuoteChar q2 then some content else none
        | [] => none
    else none
  | [] => none

/-- parse_string from parser.py: consume a STRING token and take the first
capture group of the quote-stripping regex (AttributeError when the regex
does not match). -/
def parse_string (toks : List Token) : Except PErr (Expr × List Token) := do
  let (t, rest) ← consume .STRING toks
  match stripQuotes t.value with
  | some content => .ok (.strLit ⟨content⟩, rest)
  | none => .error .attributeError

/-- parse_operator from parser.py: four peek-and-consume cases; if none
fires the local variable is unbound (unreachable from parse_expr, which
calls it only when is_operator_next holds). -/
def parse_operator (toks : List Token) : Except PErr (Expr × List Token) :=
  if peekT toks .ADD 0 then (consume .ADD toks).map fun p => (.op .ADD, p.2)
  else if peekT toks .SUBTRACT 0 then (consume .SUBTRACT toks).map fun p => (.op .SUBTRACT, p.2)
  else if peekT toks .DIVIDE 0 then (consume .DIVIDE toks).map fun p => (.op .DIVIDE, p.2)
  else if peekT toks .MULTIPLY 0 then (consume .MULTIPLY toks).map fun p => (.op .MULTIPLY, p.2)
  else .error .unboundLocal

/-- parse_variable_reference from parser.py. -/
def parse_variable_reference (toks : List Token) : Except PErr (Expr × List Token) :=
  (consume .IDENTIFIER toks).map fun p => (.varRef ⟨p.1.value⟩, p.2)

/-- The tail of parse_expr: return the lone item directly, a list when
there is more than one, and hit IndexError (items[0]) on none. -/
def itemsResult (items : List Expr) (rest : List Token) : Except PErr (Expr × List Token) :=
  match items with
  | [] => .error .indexError
  | [x] => .ok (x, rest)
  | xs => .ok (.seq xs, rest)

/-- The dispatch chain at the top of parse_expr's loop body, parameterised
by the two recursive item parsers (function calls and assignment lines):
integer, string, operator, identifier-followed-by-open-paren, assignment
line, bare identifier, in the if/elif order of parser.py; anything else is
the invalid-token failure (IndexError when the token list is empty). -/
def parse_oneF (pcall pvdecl : List Token → Except PErr (Expr × List Token))
    (toks : List Token) : Except PErr (Expr × List Token) :=
  if peekT toks .INTEGER 0 then parse_integer toks
  else if peekT toks .STRING 0 then parse_string toks
  else if is_operator_next toks then parse_operator toks
  else if peekT toks .IDENTIFIER 0 && peekT toks .OPEN_PAREN 1 then pcall toks
  else if peekT toks .VARIABLE_DECLARATION 0 then pvdecl toks
  else if peekT toks .IDENTIFIER 0 then parse_variable_reference toks
  else
    match toks with
    | [] => .error .indexError
    | t :: _ => .error (.invalidToken t)

mutual

/-- parse_expr from parser.py: run the item loop, then collapse the
collected items (lone item, or list of more than one). The Int parameter n
is the optional token-count bound, -1 meaning unbounded, exactly as the
Python default argument. -/
def parse_expr : Nat → Bool → Int → List Token → Except PErr (Expr × List Token)
  | 0, _, _, _ => .error .outOfFuel
  | fuel + 1, fc, n, toks => do
    let (items, rest) ← parse_expr_loop fuel fc n toks.length [] toks
    itemsResult items rest

/-- The while loop of parse_expr: dispatch on the head token to parse one
item, then break if exactly n tokens have been consumed since the start
(checked only here, between items), then stop if the mode's stop token is
next, else iterate. -/
def parse_expr_loop : Nat → Bool → Int → Nat → List Expr → List Token →
    Except PErr (List Expr × List Token)
  | 0, _, _, _, _, _ => .error .outOfFuel
  | fuel + 1, fc, n, startLen, acc, toks => do
    let (item, toks2) ←
      parse_oneF (parse_call fuel) (parse_variable_declaration fuel) toks
    let acc2 := acc ++ [item]
    if (startLen : Int) - (toks2.length : Int) = n then .ok (acc2, toks2)
    else if fc then
      if peekT toks2 .COMMA 0 || peekT toks2 .CLOSE_PAREN 0 then .ok (acc2, toks2)
      else parse_expr_loop fuel fc n startLen acc2 toks2
    else
      if peekT toks2 .END 0 then .ok (acc2, toks2)
      else parse_expr_loop fuel fc n startLen acc2 toks2

/-- parse_call from parser.py. -/
def parse_call : Nat → List Token → Except PErr (Expr × List Token)
  | 0, _ => .error .outOfFuel
  | fuel + 1, toks => do
    let (nameTok, t1) ← consume .IDENTIFIER toks
    let (_, t2) ← consume .OPEN_PAREN t1
    let (args, t3) ← parse_argument_expressions fuel t2
    let (_, t4) ← consume .CLOSE_PAREN t3
    .ok (.call ⟨nameTok.value⟩ args, t4)

/-- parse_argument_expressions from parser.py: its outer while loop runs
until a close paren is next. -/
def parse_argument_expressions : Nat → List Token → Except PErr (List Expr × List Token)
  | 0, _ => .error .outOfFuel
  | fuel + 1, toks => parse_args_outer fuel [] toks

/-- The outer while loop of parse_argument_expressions: parse one argument
expression, then the comma-separated continuation loop, then re-check the
close paren. -/
def parse_args_outer : Nat → List Expr → List Token → Except PErr (List Expr × List Token)
  | 0, _, _ => .error .outOfFuel
  | fuel + 1, acc, toks =>
    if peekT toks .CLOSE_PAREN 0 then .ok (acc, toks)
    else do
      let (e, t1) ← parse_expr fuel true (-1) toks
      let (acc2, t2) ← parse_args_comma fuel (acc ++ [e]) t1
      parse_args_outer fuel acc2 t2

/-- The inner while loop of parse_argument_expressions: as long as a comma
is next, consume it and parse the next argument expression. -/
def parse_args_comma : Nat → List Expr → List Token → Except PErr (List Expr × List Token)
  | 0, _, _ => .error .outOfFuel
  | fuel + 1, acc, toks =>
    if peekT toks .COMMA 0 then do
      let (_, t1) ← consume .COMMA toks
      let (e, t2) ← parse_expr fuel true (-1) t1
      parse_args_comma fuel (acc ++ [e]) t2
    else .ok (acc, toks)

/-- parse_variable_declaration from parser.py: consume the AssignmentLine
token, split its raw text at the first equals sign with the groups regex
(AttributeError when it cannot match), re-lex the right-hand side with a
fresh tokenizer, splice the new tokens onto the front of the outstanding
stream, and parse with the token-count bound set to the number of new
tokens. -/
def parse_variable_declaration : Nat → List Token → Except PErr (Expr × List Token)
  | 0, _ => .error .outOfFuel
  | fuel + 1, toks => do
    let (tok, t1) ← consume .VARIABLE_DECLARATION toks
    match matchAssignCore tok.value with
    | none => .error .attributeError
    | some (name, _, rhs, _) =>
      match tokenize_code rhs with
      | none => .error .lexError
      | some newToks => do
        let (body, rest) ← parse_expr fuel false (newToks.length : Int) (newToks ++ t1)
        .ok (.decl ⟨name⟩ body, rest)

end

/-- The comma loop of parse_argument_names: while a comma is next, consume
it and consume an identifier. -/
def args_comma_loop : List String → List Token → Except PErr (List String × List Token)
  | acc, t0 :: t1 :: rest =>
    if t0.type = .COMMA then
      if t1.type = .IDENTIFIER then args_comma_loop (acc ++ [⟨t1.value⟩]) rest
      else .error (.expectedType .IDENTIFIER t1.type)
    else .ok (acc, t0 :: t1 :: rest)
  | acc, toks =>
    if peekT toks .COMMA 0 then .error .indexError
    else .ok (acc, toks)

/-- parse_argument_names from parser.py. -/
def parse_argument_names (toks : List Token) : Except PErr (List String × List Token) := do
  let (_, t1) ← consume .OPEN_PAREN toks
  if peekT t1 .IDENTIFIER 0 then do
    let (t, t2) ← consume .IDENTIFIER t1
    let (names, t3) ← args_comma_loop [⟨t.value⟩] t2
    let (_, t4) ← consume .CLOSE_PAREN t3
    .ok (names, t4)
  else do
    let (_, t2) ← consume .CLOSE_PAREN t1
    .ok ([], t2)

/-- parse_definition from parser.py. -/
def parse_definition (fuel : Nat) (toks : List Token) :
    Except PErr (DefinitionNode × List Token) := do
  let (_, t1) ← consume .DEF toks
  let (nameTok, t2) ← consume .IDENTIFIER t1
  let (argNames, t3) ← parse_argument_names t2
  let (body, t4) ← parse_expr fuel false (-1) t3
  let (_, t5) ← consume .END t4
  .ok (⟨⟨nameTok.value⟩, argNames, body⟩, t5)

/-- parse from parser.py: while a def is next, parse one definition;
residual tokens are left unconsumed. -/
def parse : Nat → List Token → Except PErr (List DefinitionNode × List Token)
  | 0, _ => .error .outOfFuel
  | fuel + 1, toks =>
    if peekT toks .DEF 0 then do
      let (d, rest) ← parse_definition fuel toks
      let (ds, rest2) ← parse fuel rest
      .ok (d :: ds, rest2)
    else .ok ([], toks)

/-- A token is flat when the loop parses it into one node consuming exactly
that token: a well-formed integer or string token, an operator token, or a
bare identifier. -/
def flatTokOK (t : Token) : Bool :=
  match t.type with
  | .INTEGER => !t.value.isEmpty && t.value.all Char.isDigit
  | .STRING => (stripQuotes t.value).isSome
  | .IDENTIFIER => true
  | .ADD => true
  | .SUBTRACT => true
  | .MULTIPLY => true
  | .DIVIDE => true
  | _ => false

/-- The node a flat token parses into. -/
def nodeOfFlat (t : Token) : Expr :=
  match t.type with
  | .INTEGER => .intLit (digitsToNat t.value)
  | .STRING => .strLit ⟨(stripQuotes t.value).getD []⟩
  | .IDENTIFIER => .varRef ⟨t.value⟩
  | .ADD => .op .ADD
  | .SUBTRACT => .op .SUBTRACT
  | .MULTIPLY => .op .MULTIPLY
  | .DIVIDE => .op .DIVIDE
  | _ => .intLit 0

/-- Guard against the one peek that reaches past the spliced tokens: when
the last spliced token is an identifier, the first outstanding token must
not be an open paren, or the loop would start parsing a call across the
boundary. -/
def identGuardB (rem rest : List Token) : Bool :=
  match rem.getLast?, rest.head? with
  | some t, some u => !(t.type = .IDENTIFIER && u.type = .OPEN_PAREN)
  | _, _ => true

/-- The item-or-sequence collapse applied to a nonempty item list. -/
def exprOfItems : List Expr → Expr
  | [x] => x
  | xs => .seq xs

/-- Successful argument evaluation returns one value per argument
expression. -/
theorem evalArgsF_length (exec : Expr → Scope → Except RErr (Value × Scope)) :
    ∀ (es : List Expr) (σ : Scope) (vs : List Value) (σ2 : Scope),
      evalArgsF exec es σ = .ok (vs, σ2) → vs.length = es.length := by
  intro es
  induction es with
  | nil =>
    intro σ vs σ2 h
    simp only [evalArgsF] at h
    cases h
    rfl
  | cons e es ih =>
    intro σ vs σ2 h
    simp only [evalArgsF, bind, Except.bind] at h
    split at h
    · cases h
    · rename_i v1 hv1
      split at h
      · cases h
      · rename_i v2 hv2
        cases h
        have := ih v1.2 v2.1 v2.2 (by simpa using hv2)
        simp [this]

/-- A key found after an insertion is the inserted key or one already
present. -/
theorem mem_keys_insertA {α : Type} (σ : List (String × α)) (k : String) (v : α) (x : String) :
    x ∈ (insertA σ k v).map Prod.fst → x = k ∨ x ∈ σ.map Prod.fst := by
  induction σ with
  | nil => intro h; simpa [insertA] using h
  | cons p r ih =>
    intro h
    by_cases hk : p.1 = k
    · rcases p with ⟨a, b⟩
      simp only [insertA] at h
      rw [if_pos hk] at h
      simp only [List.map_cons, List.mem_cons] at h
      rcases h with h | h
      · right; simp [h]
      · right; simp [h]
    · rcases p with ⟨a, b⟩
      simp only [insertA] at h
      rw [if_neg hk] at h
      simp only [List.map_cons, List.mem_cons] at h
      rcases h with h | h
      · right; simp [h]
      · rcases ih h with h2 | h2
        · left; exact h2
        · right; simp [h2]

/-- A successful lookup means the key occurs in the list. -/
theorem lookupA_some_mem_keys {α : Type} :
    ∀ (l : List (String × α)) (x : String) (v : α),
      lookupA l x = some v → x ∈ l.map Prod.fst := by
  intro l
  induction l with
  | nil => intro x v h; simp [lookupA] at h
  | cons p r ih =>
    intro x v h
    rcases p with ⟨a, b⟩
    simp only [lookupA] at h
    by_cases hax : a = x
    · simp [hax]
    · rw [if_neg hax] at h
      simpa using Or.inr (ih x v h)

/-- Every key of the fresh parameter scope comes from the parameter list:
call_function inherits nothing from the caller. -/
theorem bindParams_keys (ps : List String) (vs : List Value) (x : String) (v : Value)
    (h : lookupA (bindParams ps vs) x = some v) : x ∈ ps := by
  have hx : x ∈ (bindParams ps vs).map Prod.fst := lookupA_some_mem_keys _ x v h
  have key : ∀ (l : List (String × Value)) (σ0 : List (String × Value)),
      x ∈ ((l.foldl (fun σ pv => insertA σ pv.1 pv.2) σ0).map Prod.fst) →
      x ∈ l.map Prod.fst ∨ x ∈ σ0.map Prod.fst := by
    intro l
    induction l with
    | nil => intro σ0 hmem; exact Or.inr hmem
    | cons p r ih =>
      intro σ0 hmem
      rcases ih (insertA σ0 p.1 p.2) hmem with h2 | h2
      · left; simp [h2]
      · rcases mem_keys_insertA σ0 p.1 p.2 x h2 with h3 | h3
        · left; simp [h3]
        · right; exact h3
  rcases key (List.zip ps vs) [] hx with hz | hz
  · rcases List.mem_map.mp hz with ⟨pq, hab, hfst⟩
    rcases pq with ⟨a, b⟩
    have ha := (List.of_mem_zip hab).1
    rw [← hfst]
    exact ha
  · simp at hz

/-- C1: in a program whose arithmetic the spec describes, every nonempty
candidate arithmetic run makes is_math_expression raise TypeError (a list,
not a tuple, is passed to isinstance), so evaluation of a run such as
2 + 3 * 4 crashes instead of folding; a run appearing as a function body is
not routed through the run evaluator at all but executed line by line,
returning its last operand (add(2, 3) yields 3). execute_math itself, were
it reachable, performs exactly the claimed left-to-right fold: 2 + 3 * 4
gives 20, 10 - 4 - 1 gives 5, and 7 / 2 gives the non-truncated 3.5. -/
theorem c1_arithmetic_run_crashes :
    execute_item host0 [] 1 (.seq [.intLit 2, .op .ADD, .intLit 3, .op .MULTIPLY, .intLit 4]) [] =
      .error .isinstanceTypeError ∧
    execute_item host0 [] 1 (.decl "x" (.seq [.intLit 2, .op .ADD, .intLit 3])) [] =
      .error .isinstanceTypeError ∧
    call_function host0 fnsAdd2 3 "add2" [.int 2, .int 3] = .ok (.int 3) ∧
    execute_math [.intLit 2, .op .ADD, .intLit 3, .op .MULTIPLY, .intLit 4] [] = .ok (.int 20) ∧
    execute_math [.intLit 10, .op .SUBTRACT, .intLit 4, .op .SUBTRACT, .intLit 1] [] = .ok (.int 5) ∧
    execute_math [.intLit 7, .op .DIVIDE, .intLit 2] [] = .ok (.float ⟨7, 2⟩) ∧
    PyFloat.toRat ⟨7, 2⟩ = 3.5 :=
  ⟨rfl, rfl, by decide, by decide, by decide, by decide, by norm_num [PyFloat.toRat]⟩

/-- C2 counterexample: the assignment x = y in a scope where y holds the
integer 5 binds x to the string "y" (the referenced variable's name, the
node's value attribute), while evaluating the bare reference y in the same
scope yields 5; the claimed binding to the referenced variable's current
value is therefore false. -/
theorem c2_assignment_counterexample :
    execute_item host0 [] 1 (.decl "x" (.varRef "y")) [("y", .int 5)] =
      .ok (.pynone, [("y", .int 5), ("x", .str "y")]) ∧
    execute_item host0 [] 1 (.varRef "y") [("y", .int 5)] = .ok (.int 5, [("y", .int 5)]) ∧
    Value.str "y" ≠ Value.int 5 :=
  ⟨rfl, rfl, by decide⟩

/-- C2 amended: an assignment whose right-hand side is an integer or string
literal binds the literal's value, one whose right-hand side is a call
binds the call's result (arguments evaluated in the caller's scope, then
call_function), but one whose right-hand side is a variable reference binds
the referenced variable's name string, not its runtime value. -/
theorem c2_assignment_amended (hst : Host) (fns : Fns) (fuel : Nat) (σ : Scope)
    (x y : String) (n : Int) (s : String) (f : String) (args : List Expr) :
    execute_item hst fns (fuel + 1) (.decl x (.intLit n)) σ = .ok (.pynone, insertA σ x (.int n)) ∧
    execute_item hst fns (fuel + 1) (.decl x (.strLit s)) σ = .ok (.pynone, insertA σ x (.str s)) ∧
    execute_item hst fns (fuel + 1) (.decl x (.varRef y)) σ = .ok (.pynone, insertA σ x (.str y)) ∧
    execute_item hst fns (fuel + 1) (.decl x (.call f args)) σ = (do
      let (vals, σ2) ← evalArgs hst fns fuel args σ
      let r ← call_function hst fns fuel f vals
      Except.ok (Value.pynone, insertA σ2 x r)) :=
  ⟨rfl, rfl, rfl, rfl⟩

/-- C3: the defensive fallback branch tests the value attribute for Python
truthiness, so the integer literal 0 (value attribute 0, falsy) reaches the
unevaluable-node failure instead of evaluating to 0, both as a bare
expression item and as the body of main; nonzero integer and nonempty
string literals evaluate to their values as claimed. -/
theorem c3_literal_zero_unevaluable :
    execute_item host0 [] 1 (.intLit 0) [] = .error .unevaluableNode ∧
    execute_item host0 [] 1 (.intLit 7) [] = .ok (.int 7, []) ∧
    execute_item host0 [] 1 (.strLit "hi") [] = .ok (.str "hi", []) ∧
    begin_execution host0 3 [⟨"main", [], .intLit 0⟩] = .error .unevaluableNode ∧
    begin_execution host0 3 [⟨"main", [], .intLit 7⟩] = .ok () :=
  ⟨by decide, by decide, by decide, by decide, by decide⟩

/-- C4: after the definition pre-pass, execution fails before any user code
runs when the table holds no zero-parameter main: with no main at all the
missing-entry-point error is raised, and with a main taking n > 0
parameters the dedicated main-takes-arguments error is raised; both are
distinct from call_function's ordinary call-arity error. When a
zero-parameter main is registered, begin_execution is exactly the call of
main with no arguments, its result discarded. -/
theorem c4_entry_point (hst : Host) (fuel : Nat) (ast : List DefinitionNode) :
    (if hasZeroParamMain ast then
        begin_execution hst fuel ast =
          (call_function hst (registerAll ast) fuel "main" []).map fun _ => ()
      else
        begin_execution hst fuel ast = .error .missingMainFunction ∨
        ∃ n, 0 < n ∧ begin_execution hst fuel ast = .error (.mainTakesArguments n)) ∧
    (∀ f e g n, RErr.missingMainFunction ≠ RErr.arityError f e g ∧
      RErr.mainTakesArguments n ≠ RErr.arityError f e g) := by
  constructor
  · rcases h : lookupA (registerAll ast) "main" with _ | d
    · simp [hasZeroParamMain, begin_execution, h]
    · rcases hd : d.arguments with _ | ⟨a, as⟩
      · simp [hasZeroParamMain, begin_execution, h, hd]
      · have h1 : hasZeroParamMain ast = false := by simp [hasZeroParamMain, h, hd]
        rw [h1]
        simp only [Bool.false_eq_true, if_false]
        right
        refine ⟨as.length + 1, by omega, ?_⟩
        simp [begin_execution, h, hd]
  · intro f e g n
    exact ⟨by simp, by simp⟩

/-- C5: a call to a function present in the table fails with the evaluator's
arity error exactly when the argument count differs from the parameter
count, and with matching counts the arguments are evaluated and
call_function runs the callee's body (call_function's own arity check
agrees: mismatching value lists fail with its arity error, matching ones
run the body in the fresh parameter scope). -/
theorem c5_arity (hst : Host) (fns : Fns) (fuel : Nat) (σ : Scope) (f : String)
    (args : List Expr) (d : DefinitionNode) (hf : lookupA fns f = some d) :
    (if d.arguments.length = args.length then
        execute_item hst fns (fuel + 1) (.call f args) σ = (do
          let (vals, σ2) ← evalArgs hst fns fuel args σ
          let r ← call_function hst fns fuel f vals
          Except.ok (r, σ2))
      else
        execute_item hst fns (fuel + 1) (.call f args) σ =
          .error (.arityMismatchCall f d.arguments args.length)) ∧
    (∀ vals : List Value, vals.length = d.arguments.length →
      call_function hst fns fuel f vals =
        (match d.body with
         | .seq items => runBodyF (execute_item hst fns fuel) items (bindParams d.arguments vals)
         | body => (execute_item hst fns fuel body (bindParams d.arguments vals)).map Prod.fst)) ∧
    (∀ vals : List Value, vals.length ≠ d.arguments.length →
      call_function hst fns fuel f vals =
        .error (.arityError f d.arguments.length vals.length)) := by
  refine ⟨?_, ?_, ?_⟩
  · by_cases h : d.arguments.length = args.length
    · rw [if_pos h]
      simp only [execute_item, hf, h, ne_eq, not_true_eq_false, if_false]
      rfl
    · rw [if_neg h]
      simp only [execute_item, hf]
      rw [if_pos h]
  · intro vals hv
    simp only [call_function, callFunctionF, hf, hv, ne_eq, not_true_eq_false, if_false]
  · intro vals hv
    simp only [call_function, callFunctionF, hf]
    rw [if_pos hv]

theorem c5_arity_witness :
    execute_item host0 fnsAdd2 (3 + 1) (.call "add2" [.intLit 1]) [] =
      .error (.arityMismatchCall "add2" ["a", "b"] 1) := by
  have h := (c5_arity host0 fnsAdd2 3 [] "add2" [.intLit 1] defAdd2 rfl).1
  simpa [defAdd2] using h

/-- C6 amended: a call expression whose name is absent from the function
table delegates to the host fallback (evaluating the arguments first) and
fails with the unknown-function error when the host has no such callable;
but a call on the right-hand side of an assignment goes straight to
call_function, which never consults the host and fails with its
function-does-not-exist error for every absent name. -/
theorem c6_host_fallback_amended (hst : Host) (fns : Fns) (fuel : Nat) (σ : Scope)
    (f x : String) (args : List Expr) (h : lookupA fns f = none) :
    (hst f = none →
      execute_item hst fns (fuel + 1) (.call f args) σ = .error (.unknownFunction f)) ∧
    (∀ g, hst f = some g →
      execute_item hst fns (fuel + 1) (.call f args) σ = (do
        let (vals, σ2) ← evalArgs hst fns fuel args σ
        Except.ok (g vals, σ2))) ∧
    execute_item hst fns (fuel + 1) (.decl x (.call f args)) σ = (do
        let (vals, σ2) ← evalArgs hst fns fuel args σ
        let r ← call_function hst fns fuel f vals
        Except.ok (Value.pynone, insertA σ2 x r)) ∧
    (∀ vals, call_function hst fns fuel f vals = .error (.functionDoesNotExist f)) := by
  refine ⟨?_, ?_, rfl, ?_⟩
  · intro hg
    simp only [execute_item, h, hg]
  · intro g hg
    simp only [execute_item, h, hg]
    rfl
  · intro vals
    simp only [call_function, callFunctionF, h]

theorem c6_host_fallback_amended_witness :
    call_function hostPrint [] 1 "print" [] = .error (.functionDoesNotExist "print") :=
  (c6_host_fallback_amended hostPrint [] 1 [] "print" "x" [] rfl).2.2.2 []

/-- C6 counterexample: with a host exposing a callable named print and an
empty function table, the statement-position call print() succeeds through
the host fallback, but the assignment x = print() fails with the
function-does-not-exist error without consulting the host: the claimed
delegation does not happen for assignment right-hand sides. -/
theorem c6_host_fallback_counterexample :
    execute_item hostPrint [] 2 (.call "print" []) [] = .ok (.pynone, []) ∧
    execute_item hostPrint [] 2 (.decl "x" (.call "print" [])) [] =
      .error (.functionDoesNotExist "print") ∧
    RErr.functionDoesNotExist "print" ≠ RErr.unknownFunction "print" :=
  ⟨rfl, rfl, by decide⟩

/-- C7: a call to a function g found in the table evaluates the arguments
in the caller's scope and then runs g's body in the scope built by
bindParams alone, which binds exactly the parameter names: nothing from the
caller's scope is reachable, and a zero-parameter callee starts from the
empty scope. -/
theorem c7_scope_isolation (hst : Host) (fns : Fns) (fuel : Nat) (σ : Scope) (g : String)
    (args : List Expr) (d : DefinitionNode) (vals : List Value) (σ2 : Scope)
    (hg : lookupA fns g = some d)
    (hargs : evalArgs hst fns fuel args σ = .ok (vals, σ2))
    (hlen : vals.length = d.arguments.length) :
    execute_item hst fns (fuel + 1) (.call g args) σ =
      (call_function hst fns fuel g vals).map (fun r => (r, σ2)) ∧
    call_function hst fns fuel g vals =
      (match d.body with
       | .seq items => runBodyF (execute_item hst fns fuel) items (bindParams d.arguments vals)
       | body => (execute_item hst fns fuel body (bindParams d.arguments vals)).map Prod.fst) ∧
    (∀ x v, lookupA (bindParams d.arguments vals) x = some v → x ∈ d.arguments) ∧
    (d.arguments = [] → bindParams d.arguments vals = []) := by
  have hlen2 : vals.length = args.length :=
    evalArgsF_length (execute_item hst fns fuel) args σ vals σ2 hargs
  refine ⟨?_, ?_, ?_, ?_⟩
  · simp only [execute_item, hg]
    have : ¬ d.arguments.length ≠ args.length := by omega
    rw [if_neg this]
    show (do
      let (vals2, σ3) ← evalArgs hst fns fuel args σ
      let r ← call_function hst fns fuel g vals2
      Except.ok (r, σ3)) = _
    rw [hargs]
    show (do
      let r ← call_function hst fns fuel g vals
      Except.ok (r, σ2)) = _
    rcases call_function hst fns fuel g vals with e | r <;> rfl
  · simp only [call_function, callFunctionF, hg, hlen, ne_eq, not_true_eq_false, if_false]
  · intro x v h
    exact bindParams_keys d.arguments vals x v h
  · intro h
    simp [bindParams, h]

theorem c7_scope_isolation_witness :
    execute_item host0 fnsG (2 + 1) (.call "g" []) [("a", .int 5)] =
      (call_function host0 fnsG 2 "g" []).map (fun r => (r, [("a", .int 5)])) ∧
    execute_item host0 fnsG (2 + 1) (.call "g" []) [("a", .int 5)] =
      .error (.unboundVariable "a") := by
  have h := c7_scope_isolation host0 fnsG 2 [("a", .int 5)] "g" [] defG [] [("a", .int 5)]
    rfl rfl rfl
  exact ⟨h.1, by rw [h.1]; decide⟩

theorem matchDef_split (c v r : List Char) (h : matchDef c = some (v, r)) :
    c = v ++ r ∧ v ≠ [] := by
  unfold matchDef at h
  split at h
  · rename_i rest
    split at h
    · rename_i c0 tail
      split at h
      · cases h
        exact ⟨rfl, by simp⟩
      · cases h
    · cases h
  · cases h

theorem matchEnd_split (c v r : List Char) (h : matchEnd c = some (v, r)) :
    c = v ++ r ∧ v ≠ [] := by
  unfold matchEnd at h
  split at h
  · rename_i rest
    split at h
    · rename_i c0 tail
      split at h
      · cases h
      · cases h
        exact ⟨rfl, by simp⟩
    · cases h
      exact ⟨rfl, by simp⟩
  · cases h

theorem matchRhsNl_split (r seg rest : List Char) (h : matchRhsNl r = some (seg, rest)) :
    r = seg ++ '\n' :: rest ∧ seg ≠ [] := by
  by_cases hne : (r.takeWhile notNl).isEmpty
  · simp [matchRhsNl, hne] at h
  · rcases hd : r.dropWhile notNl with _ | ⟨c0, rest2⟩
    · simp [matchRhsNl, hne, hd] at h
    · by_cases hc : c0 = '\n'
      · subst hc
        simp only [matchRhsNl, hne, hd, Bool.false_eq_true, if_false, if_true, if_pos rfl] at h
        cases h
        constructor
        · conv_lhs =>
            rw [← List.takeWhile_append_dropWhile notNl r, hd]
        · simpa [List.isEmpty_iff] using hne
      · simp [matchRhsNl, hne, hd, hc] at h

theorem matchWsRhs_split (r mid seg rest : List Char)
    (h : matchWsRhs r = some (mid, seg, rest)) :
    r = mid ++ seg ++ '\n' :: rest ∧ seg ≠ [] := by
  rcases r with _ | ⟨w, r2⟩
  · simp [matchWsRhs] at h
  · by_cases hw : isWsChar w
    · rcases hp : matchRhsNl r2 with _ | ⟨seg2, rest2⟩
      · rcases hq : matchRhsNl (w :: r2) with _ | ⟨seg3, rest3⟩
        · simp [matchWsRhs, hw, hp, hq] at h
        · simp only [matchWsRhs, hw, hp, hq, if_true] at h
          cases h
          have h2 := matchRhsNl_split (w :: r2) seg rest hq
          exact ⟨by simpa using h2.1, h2.2⟩
      · simp only [matchWsRhs, hw, hp, if_true] at h
        cases h
        have h2 := matchRhsNl_split r2 seg rest hp
        exact ⟨by simp [h2.1], h2.2⟩
    · rcases hq : matchRhsNl (w :: r2) with _ | ⟨seg3, rest3⟩
      · simp [matchWsRhs, hw, hq] at h
      · simp only [matchWsRhs, hw, hq, Bool.false_eq_true, if_false] at h
        cases h
        have h2 := matchRhsNl_split (w :: r2) seg rest hq
        exact ⟨by simpa using h2.1, h2.2⟩

theorem matchAssignCore_split (c name sep rhs rest : List Char)
    (h : matchAssignCore c = some (name, sep, rhs, rest)) :
    c = name ++ sep ++ rhs ++ '\n' :: rest ∧ name ≠ [] := by
  have hsplit : c = c.takeWhile isNameChar ++ c.dropWhile isNameChar :=
    (List.takeWhile_append_dropWhile isNameChar c).symm
  by_cases hne : (c.takeWhile isNameChar).isEmpty
  · simp [matchAssignCore, hne] at h
  · have hname : c.takeWhile isNameChar ≠ [] := by
      simpa [List.isEmpty_iff] using hne
    rcases hd : c.dropWhile isNameChar with _ | ⟨c0, r0⟩
    · simp [matchAssignCore, hne, hd] at h
    · by_cases h0 : c0 = '='
      · subst h0
        rcases hp : matchWsRhs r0 with _ | ⟨⟨mid2, rhs2, rest2⟩⟩
        · simp [matchAssignCore, hne, hd, hp] at h
        · simp only [matchAssignCore, hne, hd, hp, Bool.false_eq_true, if_false,
            if_pos rfl] at h
          cases h
          have hw := matchWsRhs_split r0 mid2 rhs rest hp
          refine ⟨?_, hname⟩
          rw [hw.1] at hd
          conv_lhs => rw [hsplit, hd]
          simp
      · by_cases hws : isWsChar c0
        · rcases r0 with _ | ⟨c1, r1⟩
          · simp [matchAssignCore, hne, hd, h0, hws] at h
          · by_cases h1 : c1 = '='
            · subst h1
              rcases hp : matchWsRhs r1 with _ | ⟨⟨mid2, rhs2, rest2⟩⟩
              · simp [matchAssignCore, hne, hd, h0, hws, hp] at h
              · simp only [matchAssignCore, hne, hd, h0, hws, hp, Bool.false_eq_true,
                  if_false, if_true, if_pos rfl] at h
                cases h
                have hw := matchWsRhs_split r1 mid2 rhs rest hp
                refine ⟨?_, hname⟩
                rw [hw.1] at hd
                conv_lhs => rw [hsplit, hd]
                simp
            · simp [matchAssignCore, hne, hd, h0, hws, h1] at h
        · simp [matchAssignCore, hne, hd, h0, hws] at h

theorem matchVariableDeclaration_split (c v r : List Char)
    (h : matchVariableDeclaration c = some (v, r)) : c = v ++ r ∧ v ≠ [] := by
  rcases hp : matchAssignCore c with _ | ⟨name2, sep2, rhs2, rest2⟩
  · simp [matchVariableDeclaration, hp] at h
  · simp only [matchVariableDeclaration, hp] at h
    cases h
    have hc := matchAssignCore_split c name2 sep2 rhs2 r hp
    constructor
    · rw [hc.1]
      simp
    · intro hv
      have := congrArg List.length hv
      simp [List.length_append] at this

theorem matchIdentifier_split (c v r : List Char) (h : matchIdentifier c = some (v, r)) :
    c = v ++ r ∧ v ≠ [] := by
  have hsplit : c = c.takeWhile isNameChar ++ c.dropWhile isNameChar :=
    (List.takeWhile_append_dropWhile isNameChar c).symm
  by_cases hne : (c.takeWhile isNameChar).isEmpty
  · simp [matchIdentifier, hne] at h
  · have hname : c.takeWhile isNameChar ≠ [] := by
      simpa [List.isEmpty_iff] using hne
    rcases hd : c.dropWhile isNameChar with _ | ⟨d, r2⟩
    · simp only [matchIdentifier, hne, hd, Bool.false_eq_true, if_false] at h
      cases h
      refine ⟨?_, hname⟩
      conv_lhs => rw [hsplit, hd]
    · by_cases hword : isWordChar d
      · simp [matchIdentifier, hne, hd, hword] at h
      · simp only [matchIdentifier, hne, hd, hword, Bool.false_eq_true, if_false] at h
        cases h
        refine ⟨?_, hname⟩
        conv_lhs => rw [hsplit, hd]

theorem matchInteger_split (c v r : List Char) (h : matchInteger c = some (v, r)) :
    c = v ++ r ∧ v ≠ [] := by
  by_cases hne : (c.takeWhile Char.isDigit).isEmpty
  · simp [matchInteger, hne] at h
  · simp only [matchInteger, hne, Bool.false_eq_true, if_false] at h
    cases h
    constructor
    · exact (List.takeWhile_append_dropWhile Char.isDigit c).symm
    · simpa [List.isEmpty_iff] using hne

theorem matchString_split (c v r : List Char) (h : matchString c = some (v, r)) :
    c = v ++ r ∧ v ≠ [] := by
  rcases c with _ | ⟨q, rr⟩
  · simp [matchString] at h
  · by_cases hq : isQuoteChar q
    · by_cases hne : (rr.takeWhile notQuoteChar).isEmpty
      · simp [matchString, hq, hne] at h
      · rcases hd : rr.dropWhile notQuoteChar with _ | ⟨q2, rest2⟩
        · simp [matchString, hq, hne, hd] at h
        · simp only [matchString, hq, hne, hd, Bool.false_eq_true, if_false, if_true] at h
          cases h
          constructor
          · have hrr : rr = rr.takeWhile notQuoteChar ++ q2 :: r := by
              conv_lhs =>
                rw [← List.takeWhile_append_dropWhile notQuoteChar rr, hd]
            conv_lhs => rw [hrr]
            simp
          · simp
    · simp [matchString, hq] at h

theorem matchSingle_split (ch : Char) (c v r : List Char) (h : matchSingle ch c = some (v, r)) :
    c = v ++ r ∧ v ≠ [] := by
  unfold matchSingle at h
  split at h
  · rename_i c0 rest
    split at h
    · cases h
      exact ⟨rfl, by simp⟩
    · cases h
  · cases h

theorem tokenize_next_split (c : List Char) (t : Token) (rest : List Char)
    (h : tokenize_next c = some (t, rest)) : c = t.value ++ rest ∧ t.value ≠ [] := by
  unfold tokenize_next at h
  split at h
  case h_1 p hp =>
    cases h
    exact matchDef_split c p.1 p.2 hp
  case h_2 =>
  split at h
  case h_1 p hp =>
    cases h
    exact matchEnd_split c p.1 p.2 hp
  case h_2 =>
  split at h
  case h_1 p hp =>
    cases h
    exact matchVariableDeclaration_split c p.1 p.2 hp
  case h_2 =>
  split at h
  case h_1 p hp =>
    cases h
    exact matchIdentifier_split c p.1 p.2 hp
  case h_2 =>
  split at h
  case h_1 p hp =>
    cases h
    exact matchInteger_split c p.1 p.2 hp
  case h_2 =>
  split at h
  case h_1 p hp =>
    cases h
    exact matchString_split c p.1 p.2 hp
  case h_2 =>
  split at h
  case h_1 p hp =>
    cases h
    exact matchSingle_split '(' c p.1 p.2 hp
  case h_2 =>
  split at h
  case h_1 p hp =>
    cases h
    exact matchSingle_split ')' c p.1 p.2 hp
  case h_2 =>
  split at h
  case h_1 p hp =>
    cases h
    exact matchSingle_split ',' c p.1 p.2 hp
  case h_2 =>
  split at h
  case h_1 p hp =>
    cases h
    exact matchSingle_split '+' c p.1 p.2 hp
  case h_2 =>
  split at h
  case h_1 p hp =>
    cases h
    exact matchSingle_split '-' c p.1 p.2 hp
  case h_2 =>
  split at h
  case h_1 p hp =>
    cases h
    exact matchSingle_split '*' c p.1 p.2 hp
  case h_2 =>
  split at h
  case h_1 p hp =>
    cases h
    exact matchSingle_split '/' c p.1 p.2 hp
  case h_2 =>
  cases h

/-- Interleaving is stable under restoring a stripped whitespace prefix. -/
theorem wsInterleaves_absorb (vs : List (List Char)) (r : List Char)
    (h : WsInterleaves vs (List.dropWhile isWsChar r)) : WsInterleaves vs r := by
  have hr : r = r.takeWhile isWsChar ++ r.dropWhile isWsChar :=
    (List.takeWhile_append_dropWhile isWsChar r).symm
  have htw : ∀ ch ∈ r.takeWhile isWsChar, isWsChar ch = true := by
    intro ch hch
    exact List.mem_takeWhile_imp hch
  generalize hd : List.dropWhile isWsChar r = d at h
  rw [hd] at hr
  rw [hr]
  cases h with
  | nil w hw =>
    refine WsInterleaves.nil _ ?_
    intro ch hch
    rcases List.mem_append.mp hch with h1 | h1
    · exact htw ch h1
    · exact hw ch h1
  | cons w v vs2 rest hw ht =>
    have h2 := WsInterleaves.cons (r.takeWhile isWsChar ++ w) v vs2 rest
      (by
        intro ch hch
        rcases List.mem_append.mp hch with h1 | h1
        · exact htw ch h1
        · exact hw ch h1) ht
    simpa [List.append_assoc] using h2

/-- The lexing loop produces tokens whose raw texts interleave with the
stripped whitespace to give back exactly the remaining source. -/
theorem lexLoop_interleaves : ∀ (fuel : Nat) (c : List Char) (ts : List Token),
    lexLoop fuel c = some ts → WsInterleaves (ts.map Token.value) c := by
  intro fuel
  induction fuel with
  | zero =>
    intro c ts h
    cases h
  | succ fuel ih =>
    intro c ts h
    rcases c with _ | ⟨c0, crest⟩
    · simp only [lexLoop] at h
      cases h
      exact WsInterleaves.nil [] (by simp)
    · simp only [lexLoop] at h
      rcases htn : tokenize_next (c0 :: crest) with _ | ⟨t, rest⟩
      · rw [htn] at h
        cases h
      · simp only [htn] at h
        rcases hl : lexLoop fuel (rest.dropWhile isWsChar) with _ | ts2
        · simp [hl] at h
        · simp only [hl, Option.map_some'] at h
          cases h
          have hsp := tokenize_next_split (c0 :: crest) t rest htn
          have hws2 : WsInterleaves (ts2.map Token.value) rest :=
            wsInterleaves_absorb _ rest (ih (rest.dropWhile isWsChar) ts2 hl)
          have hcons := WsInterleaves.cons [] t.value (ts2.map Token.value) rest
            (by simp) hws2
          rw [hsp.1]
          simpa using hcons

/-- C8: whenever the lexer accepts a source text, the raw texts of the
produced tokens, in order, interleave with (possibly empty) whitespace runs
to reproduce the original source exactly: concatenating all token texts
gives back the source minus the stripped whitespace, which is whitespace
normalization and nothing more. -/
theorem c8_lex_round_trip (s : List Char) (ts : List Token)
    (h : tokenize_code s = some ts) : WsInterleaves (ts.map Token.value) s := by
  unfold tokenize_code at h
  exact wsInterleaves_absorb _ s (lexLoop_interleaves _ _ _ h)

theorem c8_lex_round_trip_witness :
    WsInterleaves (List.map Token.value
      [⟨.DEF, "def ".toList⟩, ⟨.IDENTIFIER, "main".toList⟩, ⟨.OPEN_PAREN, "(".toList⟩,
       ⟨.CLOSE_PAREN, ")".toList⟩, ⟨.END, "end".toList⟩]) "def main()\nend".toList :=
  c8_lex_round_trip _ _ (by decide)

theorem itemsResult_ne_nil (items : List Expr) (rest : List Token) (h : items ≠ []) :
    itemsResult items rest = .ok (exprOfItems items, rest) := by
  match items with
  | [] => exact absurd rfl h
  | [x] => rfl
  | x :: y :: tl => rfl

/-- Parsing one flat token consumes exactly that token and produces its
node, whatever the recursive sub-parsers are. -/
theorem parse_oneF_flat (pcall pvdecl : List Token → Except PErr (Expr × List Token))
    (t : Token) (tl : List Token)
    (hf : flatTokOK t = true)
    (hnext : t.type = .IDENTIFIER → (tl.head?.map Token.type ≠ some .OPEN_PAREN)) :
    parse_oneF pcall pvdecl (t :: tl) = .ok (nodeOfFlat t, tl) := by
  rcases t with ⟨tt, tv⟩
  cases tt <;> simp [flatTokOK] at hf
  case INTEGER =>
    simp [parse_oneF, peekT, is_operator_next, parse_integer, consume, nodeOfFlat,
      bind, Except.bind, hf.1, hf.2]
    exact hf.2
  case STRING =>
    rcases hs : stripQuotes tv with _ | content
    · simp [hs] at hf
    · simp [parse_oneF, peekT, is_operator_next, parse_string, consume, nodeOfFlat,
        bind, Except.bind, hs]
  case IDENTIFIER =>
    rcases tl with _ | ⟨u, tl2⟩
    · simp [parse_oneF, peekT, is_operator_next, parse_variable_reference, consume,
        nodeOfFlat, Except.map]
    · have hu : ¬ u.type = .OPEN_PAREN := by simpa using hnext rfl
      simp [parse_oneF, peekT, is_operator_next, parse_variable_reference, consume,
        nodeOfFlat, Except.map, hu]
  case ADD =>
    simp [parse_oneF, peekT, is_operator_next, parse_operator, consume, nodeOfFlat,
      Except.map]
  case SUBTRACT =>
    simp [parse_oneF, peekT, is_operator_next, parse_operator, consume, nodeOfFlat,
      Except.map]
  case MULTIPLY =>
    simp [parse_oneF, peekT, is_operator_next, parse_operator, consume, nodeOfFlat,
      Except.map]
  case DIVIDE =>
    simp [parse_oneF, peekT, is_operator_next, parse_operator, consume, nodeOfFlat,
      Except.map]

/-- No flat token is an End token. -/
theorem flatTok_not_end (t : Token) (hf : flatTokOK t = true) : (t.type = TokenType.END) = False := by
  rcases t with ⟨tt, tv⟩
  cases tt <;> simp [flatTokOK] at hf ⊢

/-- Running the expression loop in body mode with bound n over a flat run
followed by the outstanding stream: every iteration consumes exactly one
token, no stop token fires early, and the bound (reached exactly when the
run is exhausted, since n accounts for the run's length) breaks the loop at
the boundary, leaving the outstanding stream untouched. -/
theorem parse_expr_loop_flat :
    ∀ (rem : List Token) (fuel : Nat) (acc : List Expr) (rest : List Token)
      (startLen : Nat) (n : Int),
      rem ≠ [] →
      (∀ t ∈ rem, flatTokOK t = true) →
      identGuardB rem rest = true →
      n = (startLen : Int) - (rest.length : Int) →
      rem.length ≤ fuel →
      parse_expr_loop fuel false n startLen acc (rem ++ rest) =
        .ok (acc ++ rem.map nodeOfFlat, rest) := by
  intro rem
  induction rem with
  | nil => intro fuel acc rest startLen n hne; exact absurd rfl hne
  | cons t rem2 ih =>
    intro fuel acc rest startLen n hne hflat hguard hn hfuel
    have hlen : rem2.length + 1 ≤ fuel := by simpa using hfuel
    obtain ⟨f, rfl⟩ : ∃ f, fuel = f + 1 := ⟨fuel - 1, by omega⟩
    rcases rem2 with _ | ⟨t2, rem3⟩
    · have hone := parse_oneF_flat (parse_call f) (parse_variable_declaration f) t rest
        (hflat t (by simp)) ?_
      · simp only [parse_expr_loop, List.cons_append, List.nil_append, hone, bind,
          Except.bind]
        rw [if_pos hn.symm]
        simp
      · intro hid
        simp only [identGuardB, List.getLast?_singleton, hid] at hguard
        rcases hu : rest.head? with _ | u
        · simp [hu]
        · rw [hu] at hguard
          simp only [Bool.not_eq_true', Bool.and_eq_false_iff, decide_eq_false_iff_not] at hguard
          simp only [hu, Option.map_some', ne_eq, Option.some.injEq]
          rcases hguard with h1 | h1
          · exact absurd hid h1
          · exact h1
    · have hone := parse_oneF_flat (parse_call f) (parse_variable_declaration f) t
        ((t2 :: rem3) ++ rest) (hflat t (by simp)) ?_
      · simp only [List.cons_append] at hone
        simp only [parse_expr_loop, List.cons_append, hone, bind, Except.bind]
        have hcount : ¬ ((startLen : Int) - ((t2 :: (rem3 ++ rest)).length : Int) = n) := by
          simp only [List.length_cons, List.length_append]
          omega
        rw [if_neg hcount]
        have hend : peekT (t2 :: (rem3 ++ rest)) .END 0 = false := by
          have h2 := hflat t2 (by simp)
          simp [peekT, flatTok_not_end t2 h2]
        simp only [Bool.false_eq_true, if_false, hend]
        have ihres := ih f (acc ++ [nodeOfFlat t]) rest startLen n (by simp)
          (fun u hu => hflat u (by simp [hu]))
          (by
            have hg : (t :: t2 :: rem3).getLast? = (t2 :: rem3).getLast? :=
              List.getLast?_cons_cons
            simpa [identGuardB, hg] using hguard)
          hn (by simpa using hlen)
        simp only [List.cons_append] at ihres
        rw [ihres]
        simp
      · intro hid
        have h2 := hflat t2 (by simp)
        simp only [List.cons_append, List.head?, Option.map_some', ne_eq, Option.some.injEq]
        rcases ht2 : t2.type <;> simp [flatTokOK, ht2] at h2 ⊢

/-- C9 counterexample: the accepted assignment line `x = 1 end` re-lexes
its right-hand side into k = 2 tokens (the integer and an End token), but
the bounded parse stops at the End token after consuming only one of them,
leaving both the spliced End and the outer End in the stream (the claim
demands the remainder equal the original outstanding stream); and the
accepted line `x = foo(` re-lexes into k = 2 tokens yet the call item
parsed from them consumes two further tokens of the outer stream. -/
theorem c9_two_phase_counterexample :
    parse_variable_declaration 9
        [⟨.VARIABLE_DECLARATION, "x = 1 end\n".toList⟩, ⟨.END, "end".toList⟩] =
      .ok (.decl "x" (.intLit 1), [⟨.END, "end".toList⟩, ⟨.END, "end".toList⟩]) ∧
    (tokenize_code "1 end".toList).map List.length = some 2 ∧
    ([⟨.END, "end".toList⟩, ⟨.END, "end".toList⟩] : List Token) ≠ [⟨.END, "end".toList⟩] ∧
    parse_variable_declaration 20
        [⟨.VARIABLE_DECLARATION, "x = foo(\n".toList⟩, ⟨.INTEGER, ['1']⟩,
         ⟨.CLOSE_PAREN, [')']⟩, ⟨.END, "end".toList⟩] =
      .ok (.decl "x" (.call "foo" [.intLit 1]), [⟨.END, "end".toList⟩]) ∧
    (tokenize_code "foo(".toList).map List.length = some 2 ∧
    ([⟨.END, "end".toList⟩] : List Token) ≠
      [⟨.INTEGER, ['1']⟩, ⟨.CLOSE_PAREN, [')']⟩, ⟨.END, "end".toList⟩] :=
  ⟨rfl, by decide, by decide, rfl, by decide, by decide⟩

/-- C9 amended: the raw text of an accepted AssignmentLine token is split
at its first equals sign into name and rhs, the rhs is re-lexed into k
tokens spliced onto the front of the outstanding stream, and the
expression-sequence parser runs with bound k checked only at item
boundaries, so it can stop before k tokens at a stop token among the
spliced ones or run past k when an item straddles the boundary; whenever
the spliced tokens form a flat run (integers, strings, operators, bare
identifiers, with no open paren following a final identifier), consumption
is exactly the k spliced tokens and the outstanding stream is returned
untouched. -/
theorem c9_two_phase_amended (fuel : Nat) (v name sep rhs extra : List Char)
    (rest spliced : List Token)
    (h1 : matchAssignCore v = some (name, sep, rhs, extra))
    (h2 : tokenize_code rhs = some spliced)
    (h3 : spliced ≠ [])
    (h4 : ∀ t ∈ spliced, flatTokOK t = true)
    (h5 : identGuardB spliced rest = true)
    (h6 : spliced.length + 2 ≤ fuel) :
    parse_variable_declaration fuel (⟨.VARIABLE_DECLARATION, v⟩ :: rest) =
      .ok (.decl ⟨name⟩ (exprOfItems (spliced.map nodeOfFlat)), rest) := by
  obtain ⟨f, rfl⟩ : ∃ f, fuel = f + 1 := ⟨fuel - 1, by omega⟩
  obtain ⟨f2, rfl⟩ : ∃ f2, f = f2 + 1 := ⟨f - 1, by omega⟩
  simp only [parse_variable_declaration, consume, bind, Except.bind]
  simp only [reduceIte]
  simp only [h1]
  simp only [h2]
  simp only [parse_expr, bind, Except.bind]
  have hloop := parse_expr_loop_flat spliced f2 [] rest ((spliced ++ rest).length)
    (spliced.length : Int) h3 h4 h5
    (by simp [List.length_append]) (by omega)
  rw [hloop]
  simp [itemsResult_ne_nil _ _ (show List.map nodeOfFlat spliced ≠ [] by simpa using h3)]

theorem c9_two_phase_amended_witness :
    parse_variable_declaration 9
        [⟨.VARIABLE_DECLARATION, "x = 1 + 2\n".toList⟩, ⟨.END, "end".toList⟩] =
      .ok (.decl "x" (.seq [.intLit 1, .op .ADD, .intLit 2]), [⟨.END, "end".toList⟩]) := by
  have h := c9_two_phase_amended 9 ("x = 1 + 2\n".toList) ['x'] [' ', '=', ' ']
    ("1 + 2".toList) [] [⟨.END, "end".toList⟩]
    [⟨.INTEGER, ['1']⟩, ⟨.ADD, ['+']⟩, ⟨.INTEGER, ['2']⟩]
    (by decide) (by decide) (by decide) (by decide) (by decide) (by decide)
  exact h

/-- C10: the expression-sequence parser parses at least one item before any
stop-condition check, and an End token does not match any dispatch rule, so
a body starting with End fails with the invalid-token parse error (in both
modes and for every bound); in particular a definition with no body
expressions, def f() immediately followed by end, fails with that parse
error instead of producing a definition with an empty body. -/
theorem c10_no_empty_body (fuel : Nat) (fc : Bool) (n : Int) (v : List Char) (rest : List Token) :
    parse_expr (fuel + 2) fc n (⟨.END, v⟩ :: rest) = .error (.invalidToken ⟨.END, v⟩) ∧
    parse_definition 9 [⟨.DEF, "def ".toList⟩, ⟨.IDENTIFIER, "f".toList⟩, ⟨.OPEN_PAREN, ['(']⟩,
      ⟨.CLOSE_PAREN, [')']⟩, ⟨.END, "end".toList⟩] =
      .error (.invalidToken ⟨.END, "end".toList⟩) := by
  constructor
  · show parse_expr (fuel + 1 + 1) fc n (⟨.END, v⟩ :: rest) = _
    simp [parse_expr, parse_expr_loop, parse_oneF, peekT, is_operator_next, bind, Except.bind]
  · rfl

end Sef
